import Mathlib

/-!
Verification of the variable resolver in plugins/filter/app_vars.py.

The resolver takes an application name, a specification dictionary of
variable suffixes with defaults, and a hostvars dictionary; it returns a
dictionary mapping each suffix whose resolved value is non-null to that
value.  Python values are embedded as the inductive type PyValue; Python
dictionaries are embedded as association lists in insertion order, with
lookup returning the first (unique, for genuine dicts) matching entry and
insertion overwriting in place or appending at the end, matching CPython
dict semantics.
-/

namespace AppVars

/-- A Python value: None, bool, int, str, list, or dict. -/
inductive PyValue where
  | none
  | bool (b : Bool)
  | int (n : Int)
  | str (s : String)
  | list (elems : List PyValue)
  | dict (entries : List (String × PyValue))

/-- Embeds the Python test value is None. -/
def PyValue.isNone : PyValue → Bool
  | .none => true
  | _ => false

/-- Embeds isinstance(x, str). -/
def PyValue.isStr : PyValue → Bool
  | .str _ => true
  | _ => false

/-- Embeds isinstance(x, Mapping): in this value universe the dict is the
mapping type. -/
def PyValue.isMapping : PyValue → Bool
  | .dict _ => true
  | _ => false

/-- Embeds type(x).__name__. -/
def PyValue.typeName : PyValue → String
  | .none => "NoneType"
  | .bool _ => "bool"
  | .int _ => "int"
  | .str _ => "str"
  | .list _ => "list"
  | .dict _ => "dict"

/-- A Python dict over string keys, as its list of entries in insertion
order. -/
abbrev Dict := List (String × PyValue)

/-- Lookup of a key in a dict: the value of the first entry with that key,
if any. -/
def dictFind? (d : Dict) (k : String) : Option PyValue :=
  match d.find? (fun p => p.1 == k) with
  | some p => some p.2
  | Option.none => Option.none

/-- Embeds d.get(k, default): the value stored under k when the key is
present (even when that value is None), else the default. -/
def dictGet (d : Dict) (k : String) (default : PyValue) : PyValue :=
  match dictFind? d k with
  | some v => v
  | Option.none => default

/-- Embeds k in d. -/
def dictHasKey (d : Dict) (k : String) : Bool :=
  d.any (fun p => p.1 == k)

/-- Embeds d[k] = v on a Python dict: overwrite in place when the key is
present, else append a new entry. -/
def dictInsert (d : Dict) (k : String) (v : PyValue) : Dict :=
  if dictHasKey d k then d.map (fun p => if p.1 == k then (k, v) else p)
  else d ++ [(k, v)]

/-- Embeds the f-string built at line 89: lookup_key = app_name + underscore
+ var_name. -/
def lookup_key (app_name var_name : String) : String :=
  app_name ++ "_" ++ var_name

/-- One iteration of the loop at lines 88 to 93: resolve the value for one
(var_name, default) pair and store it in result unless it is None. -/
def resolveStep (app_name : String) (hostvars : Dict) (result : Dict)
    (p : String × PyValue) : Dict :=
  let value := dictGet hostvars (lookup_key app_name p.1) p.2
  if value.isNone then result else dictInsert result p.1 value

/-- The body of resolve_app_vars after the type checks, lines 87 to 95. -/
def resolve_app_vars (app_name : String) (var_specs hostvars : Dict) : Dict :=
  var_specs.foldl (resolveStep app_name hostvars) []

/-- The full dynamically typed entry point, lines 80 to 95: the three
isinstance checks in order, each raising TypeError with a message naming
the parameter and the received type, then the resolution loop. -/
def resolve_app_vars_checked (app_name var_specs hostvars : PyValue) :
    Except String PyValue :=
  match app_name with
  | .str name =>
    match var_specs with
    | .dict specs =>
      match hostvars with
      | .dict env => .ok (.dict (resolve_app_vars name specs env))
      | v => .error ("hostvars must be a dict-like object, got " ++ v.typeName)
    | v => .error ("var_specs must be a dict-like object, got " ++ v.typeName)
  | v => .error ("app_name must be a string, got " ++ v.typeName)

/-! ### Helper lemmas about dict lookup -/

/-- Unfolding lemma for lookup on a cons cell. -/
lemma dictFind?_cons (a : String) (b : PyValue) (t : Dict) (k : String) :
    dictFind? ((a, b) :: t) k = if a == k then some b else dictFind? t k := by
  by_cases h : a == k <;> simp [dictFind?, List.find?, h]

/-- Lookup in the empty dict always fails. -/
lemma dictFind?_nil (k : String) : dictFind? [] k = Option.none := rfl

/-- Membership of a key agrees with success of its lookup. -/
lemma dictHasKey_eq_isSome (d : Dict) (k : String) :
    dictHasKey d k = (dictFind? d k).isSome := by
  induction d with
  | nil => rfl
  | cons p t ih =>
    obtain ⟨a, b⟩ := p
    by_cases h : a == k
    · simp [dictHasKey, dictFind?_cons, h, List.any_cons]
    · simp only [dictHasKey, List.any_cons, h, dictFind?_cons, if_neg,
        Bool.false_or]
      simpa [dictHasKey] using ih

/-- A key is present exactly when it occurs among the first components. -/
lemma dictHasKey_iff_mem (d : Dict) (k : String) :
    dictHasKey d k = true ↔ k ∈ d.map Prod.fst := by
  simp only [dictHasKey, List.any_eq_true, List.mem_map]
  constructor
  · rintro ⟨p, hp, hk⟩
    exact ⟨p, hp, by simpa using hk⟩
  · rintro ⟨p, hp, hk⟩
    exact ⟨p, hp, by simp [hk]⟩

/-- A failing lookup means the key is absent. -/
lemma dictFind?_eq_none_iff (d : Dict) (k : String) :
    dictFind? d k = Option.none ↔ k ∉ d.map Prod.fst := by
  rw [← dictHasKey_iff_mem, dictHasKey_eq_isSome]
  cases dictFind? d k <;> simp

/-- A successful lookup exhibits an entry of the dict. -/
lemma mem_of_dictFind?_eq_some {d : Dict} {k : String} {v : PyValue}
    (h : dictFind? d k = some v) : (k, v) ∈ d := by
  induction d with
  | nil => simp [dictFind?, List.find?] at h
  | cons p t ih =>
    obtain ⟨a, b⟩ := p
    rw [dictFind?_cons] at h
    by_cases hk : a == k
    · rw [if_pos hk] at h
      obtain rfl : b = v := by simpa using h
      obtain rfl : a = k := by simpa using hk
      exact List.mem_cons_self _ _
    · rw [if_neg hk] at h
      exact List.mem_cons_of_mem _ (ih h)

/-- In a dict with no duplicate keys, every entry is found by lookup. -/
lemma dictFind?_eq_some_of_mem {d : Dict} {k : String} {v : PyValue}
    (hnd : (d.map Prod.fst).Nodup) (h : (k, v) ∈ d) :
    dictFind? d k = some v := by
  induction d with
  | nil => simp at h
  | cons p t ih =>
    obtain ⟨a, b⟩ := p
    simp only [List.map_cons, List.nodup_cons] at hnd
    rcases List.mem_cons.mp h with heq | hmem
    · obtain ⟨rfl, rfl⟩ := Prod.mk.injEq .. ▸ heq
      simp [dictFind?_cons]
    · have hk : a ≠ k := by
        rintro rfl
        exact hnd.1 (List.mem_map.mpr ⟨(a, v), hmem, rfl⟩)
      rw [dictFind?_cons, if_neg (by simpa using hk)]
      exact ih hnd.2 hmem

/-- Dicts that are permutations of one another with no duplicate keys have
the same lookup function. -/
lemma dictFind?_perm {d d2 : Dict} (hperm : d.Perm d2)
    (hnd : (d.map Prod.fst).Nodup) (k : String) :
    dictFind? d k = dictFind? d2 k := by
  have hnd2 : (d2.map Prod.fst).Nodup := ((hperm.map Prod.fst).nodup_iff).mp hnd
  cases h : dictFind? d k with
  | none =>
    rw [dictFind?_eq_none_iff] at h
    exact ((dictFind?_eq_none_iff d2 k).mpr
      fun hmem => h (((hperm.map Prod.fst).mem_iff).mpr hmem)).symm
  | some v =>
    exact (dictFind?_eq_some_of_mem hnd2
      (hperm.mem_iff.mp (mem_of_dictFind?_eq_some h))).symm

/-- Inserting can only add the inserted key. -/
lemma dictHasKey_dictInsert {d : Dict} {k0 : String} {v : PyValue} {k : String}
    (h : dictHasKey (dictInsert d k0 v) k = true) :
    k = k0 ∨ dictHasKey d k = true := by
  unfold dictInsert at h
  by_cases hk0 : dictHasKey d k0
  · rw [if_pos hk0] at h
    simp only [dictHasKey, List.any_map, List.any_eq_true, Function.comp] at h
    obtain ⟨p, hp, hpk⟩ := h
    by_cases hpk0 : p.1 == k0
    · left
      rw [if_pos hpk0] at hpk
      exact (eq_of_beq hpk).symm
    · right
      rw [if_neg hpk0] at hpk
      exact (List.any_eq_true).mpr ⟨p, hp, hpk⟩
  · rw [if_neg hk0] at h
    simp only [dictHasKey, List.any_append, List.any_cons, List.any_nil,
      Bool.or_false, Bool.or_eq_true] at h
    rcases h with h | h
    · exact Or.inr h
    · exact Or.inl (eq_of_beq h).symm

/-- Inserting an absent key appends its entry at the end. -/
lemma dictInsert_of_hasKey_eq_false {d : Dict} {k : String} (v : PyValue)
    (h : dictHasKey d k = false) : dictInsert d k v = d ++ [(k, v)] := by
  unfold dictInsert
  rw [if_neg (by simp [h])]

/-! ### Structural lemmas about the resolution loop -/

/-- Recursive reformulation of the resolution loop: the entries produced
for each spec pair in order, with null resolved values skipped. -/
def resolveList (app : String) (env : Dict) : List (String × PyValue) → Dict
  | [] => []
  | p :: rest =>
    let value := dictGet env (lookup_key app p.1) p.2
    if value.isNone then resolveList app env rest
    else (p.1, value) :: resolveList app env rest

/-- Keys of the recursive reformulation come from the spec pairs. -/
lemma mem_keys_of_resolveList {app : String} {env : Dict}
    {l : List (String × PyValue)} {k : String}
    (h : k ∈ (resolveList app env l).map Prod.fst) : k ∈ l.map Prod.fst := by
  induction l with
  | nil => simp [resolveList] at h
  | cons p rest ih =>
    rw [resolveList] at h
    by_cases hv : (dictGet env (lookup_key app p.1) p.2).isNone
    · rw [if_pos hv] at h
      exact List.mem_cons.mpr (Or.inr (ih h))
    · rw [if_neg hv] at h
      simp only [List.map_cons, List.mem_cons] at h ⊢
      rcases h with h2 | h2
      · exact Or.inl h2
      · exact Or.inr (ih (List.mem_map.mpr (List.mem_map.mp h2)))

/-- Folding the loop body from an accumulator whose keys avoid the spec
keys appends the recursive reformulation to the accumulator, provided the
spec has no duplicate keys. -/
lemma foldl_resolveStep_eq (app : String) (env : Dict) :
    ∀ (l : List (String × PyValue)) (acc : Dict),
      (∀ p ∈ l, dictHasKey acc p.1 = false) →
      (l.map Prod.fst).Nodup →
      l.foldl (resolveStep app env) acc = acc ++ resolveList app env l
  | [], acc, _, _ => by simp [resolveList]
  | p :: rest, acc, hdisj, hnd => by
    rw [List.foldl_cons, resolveList]
    have hnd2 : (rest.map Prod.fst).Nodup := (List.nodup_cons.mp (by simpa using hnd)).2
    have hpnotin : p.1 ∉ rest.map Prod.fst := (List.nodup_cons.mp (by simpa using hnd)).1
    by_cases hv : (dictGet env (lookup_key app p.1) p.2).isNone
    · rw [if_pos hv]
      have hstep : resolveStep app env acc p = acc := by
        unfold resolveStep
        rw [if_pos hv]
      rw [hstep]
      exact foldl_resolveStep_eq app env rest acc
        (fun q hq => hdisj q (List.mem_cons_of_mem p hq)) hnd2
    · rw [if_neg hv]
      have hstep : resolveStep app env acc p =
          acc ++ [(p.1, dictGet env (lookup_key app p.1) p.2)] := by
        unfold resolveStep
        rw [if_neg hv]
        exact dictInsert_of_hasKey_eq_false _ (hdisj p (List.mem_cons_self p rest))
      rw [hstep]
      have hdisj2 : ∀ q ∈ rest,
          dictHasKey (acc ++ [(p.1, dictGet env (lookup_key app p.1) p.2)]) q.1 = false := by
        intro q hq
        have h1 : dictHasKey acc q.1 = false := hdisj q (List.mem_cons_of_mem p hq)
        have h2 : (p.1 == q.1) = false := by
          by_contra hcon
          have : p.1 = q.1 := eq_of_beq (by simpa using hcon)
          exact hpnotin (this ▸ List.mem_map_of_mem Prod.fst hq)
        simp [dictHasKey, List.any_append, h2]
        simpa [dictHasKey] using h1
      rw [foldl_resolveStep_eq app env rest _ hdisj2 hnd2, List.append_assoc]
      rfl

/-- Lookup in the recursive reformulation: the resolved value when it is
non-null, nothing otherwise, for a spec without duplicate keys. -/
lemma resolveList_find (app : String) (env : Dict) :
    ∀ (l : List (String × PyValue)), (l.map Prod.fst).Nodup → ∀ s : String,
      dictFind? (resolveList app env l) s =
        match dictFind? l s with
        | Option.none => Option.none
        | some d =>
          if (dictGet env (lookup_key app s) d).isNone then Option.none
          else some (dictGet env (lookup_key app s) d)
  | [], _, s => by simp [resolveList, dictFind?_nil]
  | p :: rest, hnd, s => by
    obtain ⟨a, b⟩ := p
    have hnd2 : (rest.map Prod.fst).Nodup := (List.nodup_cons.mp (by simpa using hnd)).2
    have hanotin : a ∉ rest.map Prod.fst := (List.nodup_cons.mp (by simpa using hnd)).1
    have ih := resolveList_find app env rest hnd2 s
    by_cases hk : a == s
    · obtain rfl : a = s := eq_of_beq hk
      by_cases hv : (dictGet env (lookup_key app a) b).isNone
      · have habs : dictFind? (resolveList app env rest) a = Option.none := by
          rw [dictFind?_eq_none_iff]
          exact fun hmem => hanotin (mem_keys_of_resolveList hmem)
        simp [resolveList, hv, habs, dictFind?_cons]
      · simp [resolveList, hv, dictFind?_cons]
    · by_cases hv : (dictGet env (lookup_key app a) b).isNone
      · simpa [resolveList, hv, dictFind?_cons, hk] using ih
      · simpa [resolveList, hv, dictFind?_cons, hk] using ih

/-- Master characterization: lookup of a suffix in the result of
resolve_app_vars, for a spec dict without duplicate keys, returns the
resolved value (environment override when the prefixed key is present,
else the default) exactly when that value is non-null. -/
lemma resolve_find (app : String) (specs env : Dict)
    (hnd : (specs.map Prod.fst).Nodup) (s : String) :
    dictFind? (resolve_app_vars app specs env) s =
      match dictFind? specs s with
      | Option.none => Option.none
      | some d =>
        if (dictGet env (lookup_key app s) d).isNone then Option.none
        else some (dictGet env (lookup_key app s) d) := by
  unfold resolve_app_vars
  rw [foldl_resolveStep_eq app env specs [] (fun _ _ => rfl) hnd,
    List.nil_append]
  exact resolveList_find app env specs hnd s

/-- Accumulated keys during the loop come from the accumulator or from the
spec pairs, with no assumption on duplicate keys. -/
lemma foldl_resolveStep_hasKey (app : String) (env : Dict) :
    ∀ (l : List (String × PyValue)) (acc : Dict) (k : String),
      dictHasKey (l.foldl (resolveStep app env) acc) k = true →
      dictHasKey acc k = true ∨ k ∈ l.map Prod.fst
  | [], _, _, h => Or.inl (by simpa using h)
  | p :: rest, acc, k, h => by
    rw [List.foldl_cons] at h
    rcases foldl_resolveStep_hasKey app env rest _ k h with h2 | h2
    · unfold resolveStep at h2
      by_cases hv : (dictGet env (lookup_key app p.1) p.2).isNone
      · rw [if_pos hv] at h2
        exact Or.inl h2
      · rw [if_neg hv] at h2
        rcases dictHasKey_dictInsert h2 with h3 | h3
        · exact Or.inr (by simp [h3])
        · exact Or.inl h3
    · exact Or.inr (List.mem_cons.mpr (Or.inr h2))

/-! ### Claim theorems -/

/-- Claim C1: for every app name, spec dict and environment, and every
suffix that is a key of the spec, if the concatenation of the app name, an
underscore and the suffix is a key of the environment holding a non-null
value v, then resolve_app_vars maps the suffix to v: the environment
override wins over the default. -/
theorem resolve_app_vars_env_override
    (app s : String) (specs env : Dict) (d v : PyValue)
    (hnd : (specs.map Prod.fst).Nodup)
    (hs : dictFind? specs s = some d)
    (he : dictFind? env (lookup_key app s) = some v)
    (hv : v.isNone = false) :
    dictFind? (resolve_app_vars app specs env) s = some v := by
  rw [resolve_find app specs env hnd s, hs]
  simp [dictGet, he, hv]

/-- Witness for C1 at a concrete input. -/
theorem resolve_app_vars_env_override_witness :
    dictFind? (resolve_app_vars "myapp" [("image", PyValue.none)]
      [("myapp_image", PyValue.str "nginx")]) "image" =
      some (PyValue.str "nginx") :=
  resolve_app_vars_env_override "myapp" "image" [("image", PyValue.none)]
    [("myapp_image", PyValue.str "nginx")] PyValue.none (PyValue.str "nginx")
    (by simp) rfl rfl rfl

/-- Claim C2: when the lookup key is absent from the environment and the
default in the spec is non-null, the result maps the suffix to the default;
in particular the non-null but falsy empty-list default is retained. -/
theorem resolve_app_vars_default_retained :
    (∀ (app s : String) (specs env : Dict) (d : PyValue),
        (specs.map Prod.fst).Nodup →
        dictFind? specs s = some d →
        dictFind? env (lookup_key app s) = Option.none →
        d.isNone = false →
        dictFind? (resolve_app_vars app specs env) s = some d) ∧
    (∀ app : String,
        dictFind? (resolve_app_vars app [("volumes", PyValue.list [])] [])
          "volumes" = some (PyValue.list [])) := by
  constructor
  · intro app s specs env d hnd hs he hd
    rw [resolve_find app specs env hnd s, hs]
    simp [dictGet, he, hd]
  · intro app
    rw [resolve_find app [("volumes", PyValue.list [])] [] (by simp) "volumes"]
    simp [dictFind?_cons, dictGet, dictFind?_nil, PyValue.isNone]

/-- Witness for C2 at a concrete input. -/
theorem resolve_app_vars_default_retained_witness :
    dictFind? (resolve_app_vars "app" [("volumes", PyValue.list [])] [])
      "volumes" = some (PyValue.list []) :=
  resolve_app_vars_default_retained.1 "app" "volumes"
    [("volumes", PyValue.list [])] [] (PyValue.list []) (by simp) rfl rfl rfl

/-- Claim C3: a suffix of the spec is a key of the result exactly when its
resolved value (environment override when the prefixed key is present,
otherwise the default) is non-null; when both resolve to null the suffix is
absent. -/
theorem resolve_app_vars_mem_iff_nonnull
    (app s : String) (specs env : Dict) (d : PyValue)
    (hnd : (specs.map Prod.fst).Nodup)
    (hs : dictFind? specs s = some d) :
    dictHasKey (resolve_app_vars app specs env) s = true ↔
      (dictGet env (lookup_key app s) d).isNone = false := by
  rw [dictHasKey_eq_isSome, resolve_find app specs env hnd s, hs]
  by_cases hv : (dictGet env (lookup_key app s) d).isNone
  · simp [hv]
  · simp [hv]

/-- Witness for C3 at a concrete input where both sides are false. -/
theorem resolve_app_vars_mem_iff_nonnull_witness :
    (dictHasKey (resolve_app_vars "a" [("x", PyValue.none)] []) "x" = true ↔
      (dictGet [] (lookup_key "a" "x") PyValue.none).isNone = false) :=
  resolve_app_vars_mem_iff_nonnull "a" "x" [("x", PyValue.none)] []
    PyValue.none (by simp) rfl

/-- Claim C5: the key set of the result of resolve_app_vars is a subset of
the key set of the spec dict: the resolver never introduces a key that is
not a key of the specification. -/
theorem resolve_app_vars_keys_subset
    (app : String) (specs env : Dict) (k : String)
    (hk : dictHasKey (resolve_app_vars app specs env) k = true) :
    dictHasKey specs k = true := by
  unfold resolve_app_vars at hk
  rcases foldl_resolveStep_hasKey app env specs [] k hk with h | h
  · simp [dictHasKey] at h
  · exact (dictHasKey_iff_mem specs k).mpr h

/-- Witness for C5 at a concrete input. -/
theorem resolve_app_vars_keys_subset_witness :
    dictHasKey [("x", PyValue.int 1)] "x" = true :=
  resolve_app_vars_keys_subset "a" [("x", PyValue.int 1)] [] "x" rfl

/-- Claim C6: the concrete scenario of the spec: with app name testapp,
defaults for image (null), image_tag and restart_policy, and environment
overrides for image and restart_policy, the result resolves all three; and
with the image override removed the result has no image key. -/
theorem resolve_app_vars_concrete_scenario :
    resolve_app_vars "testapp"
      [("image", PyValue.none), ("image_tag", PyValue.str "latest"),
       ("restart_policy", PyValue.str "unless-stopped")]
      [("testapp_image", PyValue.str "nginx"),
       ("testapp_restart_policy", PyValue.str "always")] =
    [("image", PyValue.str "nginx"), ("image_tag", PyValue.str "latest"),
     ("restart_policy", PyValue.str "always")] ∧
    dictFind?
      (resolve_app_vars "testapp"
        [("image", PyValue.none), ("image_tag", PyValue.str "latest"),
         ("restart_policy", PyValue.str "unless-stopped")]
        [("testapp_restart_policy", PyValue.str "always")]) "image" =
    Option.none :=
  ⟨rfl, rfl⟩

/-- Claim C9: an explicit null stored in the environment under the lookup
key suppresses the suffix from the result even when the default is
non-null: the default is never consulted when the key is present. -/
theorem resolve_app_vars_null_override_suppresses
    (app s : String) (specs env : Dict) (d : PyValue)
    (hnd : (specs.map Prod.fst).Nodup)
    (hs : dictFind? specs s = some d)
    (he : dictFind? env (lookup_key app s) = some PyValue.none) :
    dictFind? (resolve_app_vars app specs env) s = Option.none := by
  rw [resolve_find app specs env hnd s, hs]
  simp [dictGet, he, PyValue.isNone]

/-- Witness for C9 at a concrete input with a non-null default. -/
theorem resolve_app_vars_null_override_suppresses_witness :
    dictFind? (resolve_app_vars "a" [("x", PyValue.str "keep")]
      [("a_x", PyValue.none)]) "x" = Option.none :=
  resolve_app_vars_null_override_suppresses "a" "x" [("x", PyValue.str "keep")]
    [("a_x", PyValue.none)] (PyValue.str "keep") (by simp) rfl rfl

/-! ### The call as explicit state passing, for the purity claim -/

/-- The state visible to one call of resolve_app_vars: its three arguments
and the result dict it builds. -/
structure CallState where
  app_name : String
  var_specs : Dict
  hostvars : Dict
  result : Dict

/-- One loop iteration as a transformer of the whole call state: the source
only ever assigns into result. -/
def loopBody (st : CallState) (p : String × PyValue) : CallState :=
  let value := dictGet st.hostvars (lookup_key st.app_name p.1) p.2
  if value.isNone then st
  else { st with result := dictInsert st.result p.1 value }

/-- Running the whole call on an initial state holding the arguments and an
empty result. -/
def runResolve (a : String) (specs env : Dict) : CallState :=
  specs.foldl loopBody
    { app_name := a, var_specs := specs, hostvars := env, result := [] }

/-- The loop only rewrites the result component of the state. -/
lemma foldl_loopBody_eq :
    ∀ (l : List (String × PyValue)) (st : CallState),
      l.foldl loopBody st =
        { st with
          result := l.foldl (resolveStep st.app_name st.hostvars) st.result }
  | [], _ => rfl
  | p :: t, st => by
    rw [List.foldl_cons, List.foldl_cons]
    by_cases hv : (dictGet st.hostvars (lookup_key st.app_name p.1) p.2).isNone
    · have h1 : loopBody st p = st := by
        unfold loopBody
        rw [if_pos hv]
      have h2 : resolveStep st.app_name st.hostvars st.result p = st.result := by
        unfold resolveStep
        rw [if_pos hv]
      rw [h1, h2]
      exact foldl_loopBody_eq t st
    · have h1 : loopBody st p =
          { st with result := dictInsert st.result p.1 (dictGet st.hostvars (lookup_key st.app_name p.1) p.2) } := by
        unfold loopBody
        rw [if_neg hv]
      have h2 : resolveStep st.app_name st.hostvars st.result p =
          dictInsert st.result p.1 (dictGet st.hostvars (lookup_key st.app_name p.1) p.2) := by
        unfold resolveStep
        rw [if_neg hv]
      rw [h1, h2, foldl_loopBody_eq t]

/-- Claim C7: the resolver is pure: in the state-passing embedding of the
call, the arguments held in the state are unchanged after the loop, and
the result component is the function resolve_app_vars of the arguments, so
two calls with value-equal arguments yield equal results and only the
freshly built result is written. -/
theorem resolve_app_vars_pure (a : String) (specs env : Dict) :
    (runResolve a specs env).app_name = a ∧
    (runResolve a specs env).var_specs = specs ∧
    (runResolve a specs env).hostvars = env ∧
    (runResolve a specs env).result = resolve_app_vars a specs env := by
  unfold runResolve
  rw [foldl_loopBody_eq]
  exact ⟨rfl, rfl, rfl, rfl⟩

/-- Claim C8: the result is independent of the enumeration order of the
spec dict: two specs equal as sets of key-default pairs (permutations of
one another, without duplicate keys) resolve to results that are equal as
mappings. -/
theorem resolve_app_vars_order_independent
    (app : String) (specs specs2 env : Dict)
    (hperm : specs.Perm specs2)
    (hnd : (specs.map Prod.fst).Nodup) (k : String) :
    dictFind? (resolve_app_vars app specs env) k =
      dictFind? (resolve_app_vars app specs2 env) k := by
  have hnd2 : (specs2.map Prod.fst).Nodup :=
    ((hperm.map Prod.fst).nodup_iff).mp hnd
  rw [resolve_find app specs env hnd k, resolve_find app specs2 env hnd2 k,
    dictFind?_perm hperm hnd k]

/-- Witness for C8 at a concrete pair of reordered specs. -/
theorem resolve_app_vars_order_independent_witness :
    dictFind? (resolve_app_vars "p"
      [("a", PyValue.int 1), ("b", PyValue.int 2)] []) "a" =
    dictFind? (resolve_app_vars "p"
      [("b", PyValue.int 2), ("a", PyValue.int 1)] []) "a" :=
  resolve_app_vars_order_independent "p"
    [("a", PyValue.int 1), ("b", PyValue.int 2)]
    [("b", PyValue.int 2), ("a", PyValue.int 1)] []
    (List.Perm.swap _ _ _) (by simp) "a"

/-- Claim C4: the dynamically typed entry point raises TypeError exactly
when app_name is not a string or var_specs or hostvars is not a mapping,
eagerly and in argument order, with a message naming the parameter and the
received type; with well-typed arguments it returns a dict and no other
error arises. -/
theorem resolve_app_vars_checked_type_errors (a s e : PyValue) :
    (a.isStr = false →
      resolve_app_vars_checked a s e =
        Except.error ("app_name must be a string, got " ++ a.typeName)) ∧
    (a.isStr = true → s.isMapping = false →
      resolve_app_vars_checked a s e =
        Except.error ("var_specs must be a dict-like object, got " ++ s.typeName)) ∧
    (a.isStr = true → s.isMapping = true → e.isMapping = false →
      resolve_app_vars_checked a s e =
        Except.error ("hostvars must be a dict-like object, got " ++ e.typeName)) ∧
    (a.isStr = true → s.isMapping = true → e.isMapping = true →
      ∃ r : Dict, resolve_app_vars_checked a s e = Except.ok (PyValue.dict r)) := by
  cases a <;> cases s <;> cases e <;>
    simp [resolve_app_vars_checked, PyValue.isStr, PyValue.isMapping]

/-- Witness for C4: each of the three type errors and the well-typed case
at concrete inputs. -/
theorem resolve_app_vars_checked_type_errors_witness :
    resolve_app_vars_checked (PyValue.int 3) (PyValue.dict []) (PyValue.dict []) =
      Except.error "app_name must be a string, got int" ∧
    resolve_app_vars_checked (PyValue.str "a") (PyValue.list []) (PyValue.dict []) =
      Except.error "var_specs must be a dict-like object, got list" ∧
    resolve_app_vars_checked (PyValue.str "a") (PyValue.dict []) PyValue.none =
      Except.error "hostvars must be a dict-like object, got NoneType" ∧
    (∃ r : Dict, resolve_app_vars_checked
      (PyValue.str "a") (PyValue.dict []) (PyValue.dict []) =
        Except.ok (PyValue.dict r)) :=
  ⟨(resolve_app_vars_checked_type_errors
      (PyValue.int 3) (PyValue.dict []) (PyValue.dict [])).1 rfl,
   (resolve_app_vars_checked_type_errors
      (PyValue.str "a") (PyValue.list []) (PyValue.dict [])).2.1 rfl rfl,
   (resolve_app_vars_checked_type_errors
      (PyValue.str "a") (PyValue.dict []) PyValue.none).2.2.1 rfl rfl rfl,
   (resolve_app_vars_checked_type_errors
      (PyValue.str "a") (PyValue.dict []) (PyValue.dict [])).2.2.2 rfl rfl rfl⟩

/-- Claim C10: lookup keys do not disambiguate underscores in the app
name: suffix t under app name a_s and suffix s_t under app name a build
the same environment key a_s_t, so the two resolutions read the same
environment entry. -/
theorem resolve_app_vars_underscore_collision
    (a s t : String) (d : PyValue) (env : Dict) :
    lookup_key (a ++ "_" ++ s) t = lookup_key a (s ++ "_" ++ t) ∧
    dictFind? (resolve_app_vars (a ++ "_" ++ s) [(t, d)] env) t =
      dictFind? (resolve_app_vars a [(s ++ "_" ++ t, d)] env) (s ++ "_" ++ t) := by
  have hkey : lookup_key (a ++ "_" ++ s) t = lookup_key a (s ++ "_" ++ t) := by
    unfold lookup_key
    simp [String.append_assoc]
  refine ⟨hkey, ?_⟩
  by_cases hv : (dictGet env (lookup_key a (s ++ "_" ++ t)) d).isNone
  · simp [resolve_app_vars, resolveStep, hkey, hv, dictInsert, dictHasKey,
      dictFind?_nil]
  · simp [resolve_app_vars, resolveStep, hkey, hv, dictInsert, dictHasKey,
      dictFind?_cons]

end AppVars
